import Mathlib

/-
Verification development for the chromokinesis palette generator
(src/index.ts).  The core of the program is `computeVariants`, which
converts a base color to the oklch representation via the culori library,
repeatedly blends it toward three fixed reference colors (tints toward
white, shades toward black, tones toward a mid gray), deduplicates the
formatted results and names each accepted variant.

Modelling choices:
- JavaScript numbers are modelled as exact rationals; `toFixed(2)`
  followed by unary plus is modelled as rounding to two decimals.
- The culori library is external to the repository.  Its color values are
  modelled by the free term type `JsColor`, which records exactly the
  library calls the source makes (the oklch conversion of the base color
  string, and each interpolation call with its mode, endpoints and mix
  fraction).  The textual formatters (formatHex / formatRgb / formatHsl)
  are abstract functions `JsColor -> Option String`, `none` standing for
  JavaScript `undefined`; theorems quantify over them, so they hold for
  any behavior of the library.
- The source calls culori's `interpolate([base, mix])` without a mode
  argument; culori documents the default interpolation mode as "rgb",
  which is recorded in the `interp` node produced by `blend`.
-/

/-- Output notations supported by the program (source type `ColorFormat`). -/
inductive ColorFormat where
  | hex
  | rgb
  | hsl
deriving DecidableEq

/-- Variant kinds (source type `HueVariant`, the strings "tints",
"shades", "tones"). -/
inductive HueVariant where
  | tints
  | shades
  | tones
deriving DecidableEq

/-- Free model of culori color values: records the library calls made by
the source.  `oklchConv src` is `converter("oklch")(src)`;
`interp mode base mix t` is `interpolate([base, mix], mode)(t)`. -/
inductive JsColor where
  | oklchConv (src : String)
  | interp (mode : String) (base : JsColor) (mix : String) (t : ℚ)
deriving DecidableEq

/-- Abstract behaviors of the three culori formatters; `none` models
JavaScript `undefined` (a degenerate format). -/
structure Formatters where
  fmtHex : JsColor → Option String
  fmtRgb : JsColor → Option String
  fmtHsl : JsColor → Option String

/-- Source `format` (src/index.ts lines 46-50): dispatches the output
notation to the corresponding culori formatter. -/
def format (B : Formatters) : ColorFormat → JsColor → Option String
  | ColorFormat.hex => B.fmtHex
  | ColorFormat.rgb => B.fmtRgb
  | ColorFormat.hsl => B.fmtHsl

/-- Source `blend` (src/index.ts lines 72-73):
`(base, mix, mixAmount) => interpolate([base, mix])(mixAmount)`.
No mode argument is passed, so culori's documented default mode "rgb" is
the one recorded in the interpolation node. -/
def blend (base : JsColor) (mix : String) (t : ℚ) : JsColor :=
  JsColor.interp "rgb" base mix t

/-- Follows the spec's words, for the refinement comparison of claim C1:
blending performed "in the uniform space", i.e. with interpolation mode
"oklch". -/
def specBlend (base : JsColor) (mix : String) (t : ℚ) : JsColor :=
  JsColor.interp "oklch" base mix t

/-- The string tag of a variant kind, as iterated over in the source. -/
def hueVariantStr : HueVariant → String
  | HueVariant.tints => "tints"
  | HueVariant.shades => "shades"
  | HueVariant.tones => "tones"

/-- Source `mixColors` object (src/index.ts lines 75-79): the reference
color for each kind, as a literal hex string. -/
def mixColors : HueVariant → String
  | HueVariant.tints => "#ffffff"
  | HueVariant.shades => "#000000"
  | HueVariant.tones => "#636363"

/-- `Object.values(mixColors)` in insertion order (src/index.ts line 91). -/
def mixColorsValues : List String := ["#ffffff", "#000000", "#636363"]

/-- Rounding to two decimals: models `+(x).toFixed(2)` on exact
rationals (src/index.ts line 83). -/
def round2 (q : ℚ) : ℚ := (round (q * 100) : ℤ) / 100

/-- JavaScript number-to-string conversion, modelled on the integer-valued
case (the only case reached by the program: the percent interpolated into
a variant name is always an integer, see `round2_mul_hundred`). -/
def jsNumToString (q : ℚ) : String :=
  if q.den = 1 then toString q.num else toString q

/-- Source variant name (src/index.ts line 100):
the template `{colorName}-{variant.slice(0,-1)}-{+(f * 100).toFixed(2)}`. -/
def variantTitle (colorName : String) (v : HueVariant) (f : ℚ) : String :=
  colorName ++ "-" ++ (hueVariantStr v).dropRight 1 ++ "-" ++
    jsNumToString (round2 (f * 100))

/-- Source interface `Variants` (src/index.ts lines 20-25), with the three
kind collections initialized to empty arrays as in lines 63-68.  An entry
is a pair of the generated name and the formatted color value, the value
being `none` when the formatter returned `undefined`. -/
structure Variants where
  hue : String
  tints : List (String × Option String)
  shades : List (String × Option String)
  tones : List (String × Option String)
deriving DecidableEq

/-- Field access `result[variant]`. -/
def getKind (s : Variants) : HueVariant → List (String × Option String)
  | HueVariant.tints => s.tints
  | HueVariant.shades => s.shades
  | HueVariant.tones => s.tones

/-- Array push `result[variant]?.push(color)` (src/index.ts line 102). -/
def pushKind (s : Variants) (v : HueVariant) (e : String × Option String) :
    Variants :=
  match v with
  | HueVariant.tints => { s with tints := s.tints ++ [e] }
  | HueVariant.shades => { s with shades := s.shades ++ [e] }
  | HueVariant.tones => { s with tones := s.tones ++ [e] }

/-- Source dedup condition (src/index.ts lines 90-97):
`Object.values(mixColors).includes(formatted) || formatted === result.hue
|| result["shades"].map(v => Object.values(v)[0]).includes(formatted)`.
JavaScript `includes`/`===` compare `undefined` as equal only to
`undefined`, which is exactly equality on `Option String`. -/
def dedupHit (s : Variants) (formatted : Option String) : Bool :=
  (mixColorsValues.map some).contains formatted ||
    formatted == some s.hue ||
    (s.shades.map Prod.snd).contains formatted

/-- One inner-loop body of `computeVariants` (src/index.ts lines 83-102)
for step index `i` and kind `v`: round the mix fraction, skip when it is
at least 1, blend, format, dedup, and otherwise push the named entry. -/
def step (fmt : JsColor → Option String) (colorName : String) (hue : JsColor)
    (mixAmount : ℚ) (s : Variants) (i : ℕ) (v : HueVariant) : Variants :=
  let roundedMixAmount := round2 (mixAmount * i)
  if 1 ≤ roundedMixAmount then s
  else
    let mixed := blend hue (mixColors v) roundedMixAmount
    let formatted := fmt mixed
    if dedupHit s formatted then s
    else pushKind s v (variantTitle colorName v roundedMixAmount, formatted)

/-- The inner `for (const variant of hueVariants)` loop at a fixed step
index (src/index.ts lines 82-103). -/
def stepRow (fmt : JsColor → Option String) (colorName : String)
    (hue : JsColor) (mixAmount : ℚ) (hueVariants : List HueVariant)
    (s : Variants) (i : ℕ) : Variants :=
  hueVariants.foldl (fun s v => step fmt colorName hue mixAmount s i v) s

/-- Source `computeVariants` (src/index.ts lines 52-106): convert the base
color to oklch, format it for the `hue` field (left empty when the
formatter yields no string, line 70), then run the two nested loops over
step indices `1..colorAmount` and the selected kinds. -/
def computeVariants (B : Formatters) (colorOutputFormat : ColorFormat)
    (colorName colorCode : String) (colorAmount : ℕ) (mixAmount : ℚ)
    (hueVariants : List HueVariant) : Variants :=
  let hue := JsColor.oklchConv colorCode
  let formattedHue := format B colorOutputFormat hue
  let init : Variants :=
    { hue := formattedHue.getD "", tints := [], shades := [], tones := [] }
  (List.range' 1 colorAmount).foldl
    (stepRow (format B colorOutputFormat) colorName hue mixAmount hueVariants)
    init

/-- Source `areColorsValid` (src/index.ts lines 27-31): every value of the
batch must parse. -/
def areColorsValid (parse : String → Option JsColor)
    (colors : List String) : Bool :=
  colors.all fun color => (parse color).isSome

/-- Source `getBaseColors` (src/index.ts lines 33-44), after the file read
and JSON parse (I/O, out of scope): the parsed name/value pairs are
returned only when the whole batch validates, otherwise `null`. -/
def getBaseColors (parse : String → Option JsColor)
    (parsed : List (String × String)) : Option (List (String × String)) :=
  if areColorsValid parse (parsed.map Prod.snd) then some parsed else none

/-- Source `generatePalette` loop (src/index.ts lines 115-126): one
`computeVariants` result per base color, in input order. -/
def generatePalette (B : Formatters) (colorOutputFormat : ColorFormat)
    (hueVariants : List HueVariant) (baseColors : List (String × String))
    (colorAmount : ℕ) (mixAmount : ℚ) : List (String × Variants) :=
  baseColors.map fun p =>
    (p.1, computeVariants B colorOutputFormat p.1 p.2 colorAmount mixAmount
      hueVariants)

/-- The program's gate (src/index.ts lines 216-221 plus 112): when
`getBaseColors` returns `null` the process exits before any generation;
otherwise the palette is generated for every base color. -/
def runPalette (parse : String → Option JsColor) (B : Formatters)
    (colorOutputFormat : ColorFormat) (hueVariants : List HueVariant)
    (fileColors : List (String × String)) (colorAmount : ℕ)
    (mixAmount : ℚ) : Option (List (String × Variants)) :=
  (getBaseColors parse fileColors).map fun bc =>
    generatePalette B colorOutputFormat hueVariants bc colorAmount mixAmount

/-- Source line 294: `const mixAmount = 1 / (colorAmountI + 1)` in the
`colorAmount` calculation method. -/
def stepSizeOfCount (colorAmount : ℕ) : ℚ := 1 / (colorAmount + 1)

/-- Concrete formatter behavior for closed instances: renders a converted
base color as "base" and a blended color as its interpolation mode. -/
def fmtTag : JsColor → Option String
  | JsColor.oklchConv _ => some "base"
  | JsColor.interp mode _ _ _ => some mode

/-- Formatter bundle built from `fmtTag`. -/
def BTag : Formatters :=
  { fmtHex := fmtTag, fmtRgb := fmtTag, fmtHsl := fmtTag }

/-- Concrete formatter behavior for closed instances: renders a converted
base color as "bh" and every blended color as "w". -/
def fmtBlendW : JsColor → Option String
  | JsColor.oklchConv _ => some "bh"
  | JsColor.interp _ _ _ _ => some "w"

/-- Formatter bundle built from `fmtBlendW`. -/
def BW : Formatters :=
  { fmtHex := fmtBlendW, fmtRgb := fmtBlendW, fmtHsl := fmtBlendW }

/-- Concrete formatter behavior for closed instances: defined on the base
conversion but degenerate (no string) on every blended color. -/
def fmtNoneBlend : JsColor → Option String
  | JsColor.oklchConv _ => some "bh"
  | JsColor.interp _ _ _ _ => none

/-- Formatter bundle built from `fmtNoneBlend`. -/
def BNB : Formatters :=
  { fmtHex := fmtNoneBlend, fmtRgb := fmtNoneBlend, fmtHsl := fmtNoneBlend }

/-- Concrete formatter behavior for closed instances: degenerate on every
color. -/
def fmtNoneAll : JsColor → Option String := fun _ => none

/-- Formatter bundle built from `fmtNoneAll`. -/
def BNone : Formatters :=
  { fmtHex := fmtNoneAll, fmtRgb := fmtNoneAll, fmtHsl := fmtNoneAll }

/-- Concrete parse behavior for closed instances: fails exactly on the
value "bad". -/
def parseW : String → Option JsColor :=
  fun s => if s = "bad" then none else some (JsColor.oklchConv s)

/-- Concrete base-color batch with one unparseable value. -/
def entriesW : List (String × String) := [("a", "ok"), ("b", "bad")]

/-- Concrete generation state with hue string "bh" and empty collections. -/
def stateBH : Variants :=
  { hue := "bh", tints := [], shades := [], tones := [] }

/-- Formatter bundle with rgb- and hsl-shaped outputs, rendering every
color as pure white in the respective notation. -/
def BRgbHsl : Formatters :=
  { fmtHex := fun _ => some "#ffffff",
    fmtRgb := fun _ => some "rgb(255, 255, 255)",
    fmtHsl := fun _ => some "hsl(0, 0%, 100%)" }

/-- Pushing to one kind's collection appends at the end of that collection
and leaves the other collections unchanged. -/
theorem getKind_pushKind (s : Variants) (v v' : HueVariant)
    (e : String × Option String) :
    getKind (pushKind s v e) v' =
      if v' = v then getKind s v' ++ [e] else getKind s v' := by
  cases v <;> cases v' <;> simp [pushKind, getKind]

/-- A push is observable: the state strictly changes. -/
theorem pushKind_ne (s : Variants) (v : HueVariant)
    (e : String × Option String) : pushKind s v e ≠ s := by
  intro h
  have h2 := congrArg (fun t => (getKind t v).length) h
  simp [getKind_pushKind] at h2

/-- A pair whose rounded mix fraction reaches 1 is skipped: the state is
returned unchanged. -/
theorem step_skip (fmt : JsColor → Option String) (colorName : String)
    (hue : JsColor) (mixAmount : ℚ) (s : Variants) (i : ℕ) (v : HueVariant)
    (h : 1 ≤ round2 (mixAmount * i)) :
    step fmt colorName hue mixAmount s i v = s := by
  simp [step, h]

/-- A pair whose formatted blend hits the dedup condition is discarded:
the state is returned unchanged. -/
theorem step_dedup (fmt : JsColor → Option String) (colorName : String)
    (hue : JsColor) (mixAmount : ℚ) (s : Variants) (i : ℕ) (v : HueVariant)
    (h1 : ¬ 1 ≤ round2 (mixAmount * i))
    (h2 : dedupHit s
      (fmt (blend hue (mixColors v) (round2 (mixAmount * i)))) = true) :
    step fmt colorName hue mixAmount s i v = s := by
  simp [step, h1, h2]

/-- A pair that passes the skip test and the dedup test is accepted and
pushed with its synthesized name. -/
theorem step_push (fmt : JsColor → Option String) (colorName : String)
    (hue : JsColor) (mixAmount : ℚ) (s : Variants) (i : ℕ) (v : HueVariant)
    (h1 : ¬ 1 ≤ round2 (mixAmount * i))
    (h2 : dedupHit s
      (fmt (blend hue (mixColors v) (round2 (mixAmount * i)))) = false) :
    step fmt colorName hue mixAmount s i v =
      pushKind s v (variantTitle colorName v (round2 (mixAmount * i)),
        fmt (blend hue (mixColors v) (round2 (mixAmount * i)))) := by
  simp [step, h1, h2]

/-- The dedup condition on a defined formatted string, as a proposition:
equality with a reference color string, with the base hue string, or with
a value already accepted into the shades collection. -/
theorem dedupHit_some (s : Variants) (str : String) :
    dedupHit s (some str) = true ↔
      str ∈ mixColorsValues ∨ str = s.hue ∨
        some str ∈ s.shades.map Prod.snd := by
  simp [dedupHit]
  tauto

/-- The dedup condition on an undefined formatted value reduces to the
shades membership test: the reference strings and the hue never compare
equal to `undefined`. -/
theorem dedupHit_none (s : Variants) :
    dedupHit s none = (s.shades.map Prod.snd).contains none := by
  simp [dedupHit, mixColorsValues]

/-- Folding a function that fixes every element rejected by `p` equals
folding over the filtered list: rejected elements are simply dropped while
all later elements are still processed. -/
theorem foldl_eq_foldl_filter {α β : Type} (g : β → α → β) (p : α → Bool) :
    ∀ (l : List α) (s : β), (∀ t a, a ∈ l → p a = false → g t a = t) →
      l.foldl g s = (l.filter p).foldl g s := by
  intro l
  induction l with
  | nil => intro s _; rfl
  | cons a t ih =>
    intro s h
    by_cases hp : p a = true
    · simp only [List.foldl_cons, List.filter_cons, hp, if_true]
      exact ih (g s a) fun t' b hb hpb => h t' b (List.mem_cons_of_mem _ hb) hpb
    · have hpf : p a = false := by simpa using hp
      simp only [List.foldl_cons, List.filter_cons, hpf, Bool.false_eq_true,
        if_false, h s a (List.mem_cons_self _ _) hpf]
      exact ih s fun t' b hb hpb => h t' b (List.mem_cons_of_mem _ hb) hpb

/-- Provenance of an entry after one `step`: it was already present, or it
is the freshly accepted candidate of this (index, kind) pair, blended at
the rounded fraction and named with that same fraction. -/
theorem mem_getKind_step (fmt : JsColor → Option String) (colorName : String)
    (hue : JsColor) (mixAmount : ℚ) (s : Variants) (i : ℕ)
    (v v' : HueVariant) (e : String × Option String)
    (h : e ∈ getKind (step fmt colorName hue mixAmount s i v') v) :
    e ∈ getKind s v ∨
      (round2 (mixAmount * i) < 1 ∧
        e = (variantTitle colorName v (round2 (mixAmount * i)),
          fmt (blend hue (mixColors v) (round2 (mixAmount * i))))) := by
  by_cases h1 : 1 ≤ round2 (mixAmount * i)
  · rw [step_skip fmt colorName hue mixAmount s i v' h1] at h
    exact Or.inl h
  · cases h2 : dedupHit s
      (fmt (blend hue (mixColors v') (round2 (mixAmount * i)))) with
    | true =>
      rw [step_dedup fmt colorName hue mixAmount s i v' h1 h2] at h
      exact Or.inl h
    | false =>
      rw [step_push fmt colorName hue mixAmount s i v' h1 h2,
        getKind_pushKind] at h
      by_cases hv : v = v'
      · subst hv
        rw [if_pos rfl, List.mem_append] at h
        rcases h with h | h
        · exact Or.inl h
        · exact Or.inr ⟨not_le.mp h1, by simpa using h⟩
      · rw [if_neg hv] at h
        exact Or.inl h

/-- Provenance of an entry after one whole row of kinds at step index `i`. -/
theorem mem_getKind_stepRow (fmt : JsColor → Option String)
    (colorName : String) (hue : JsColor) (mixAmount : ℚ)
    (ks : List HueVariant) (s : Variants) (i : ℕ) (v : HueVariant)
    (e : String × Option String)
    (h : e ∈ getKind (stepRow fmt colorName hue mixAmount ks s i) v) :
    e ∈ getKind s v ∨
      (round2 (mixAmount * i) < 1 ∧
        e = (variantTitle colorName v (round2 (mixAmount * i)),
          fmt (blend hue (mixColors v) (round2 (mixAmount * i))))) := by
  induction ks generalizing s with
  | nil => exact Or.inl h
  | cons k t ih =>
    simp only [stepRow, List.foldl_cons] at h
    rcases ih (step fmt colorName hue mixAmount s i k) h with h' | h'
    · exact mem_getKind_step fmt colorName hue mixAmount s i v k e h'
    · exact Or.inr h'

/-- Provenance of an entry after folding the rows of a list of step
indices. -/
theorem mem_getKind_foldRows (fmt : JsColor → Option String)
    (colorName : String) (hue : JsColor) (mixAmount : ℚ)
    (ks : List HueVariant) (is : List ℕ) (s : Variants) (v : HueVariant)
    (e : String × Option String)
    (h : e ∈ getKind
      (is.foldl (stepRow fmt colorName hue mixAmount ks) s) v) :
    e ∈ getKind s v ∨ ∃ i ∈ is, round2 (mixAmount * i) < 1 ∧
      e = (variantTitle colorName v (round2 (mixAmount * i)),
        fmt (blend hue (mixColors v) (round2 (mixAmount * i)))) := by
  induction is generalizing s with
  | nil => exact Or.inl h
  | cons a t ih =>
    rw [List.foldl_cons] at h
    rcases ih (stepRow fmt colorName hue mixAmount ks s a) h with h' | h'
    · rcases mem_getKind_stepRow fmt colorName hue mixAmount ks s a v e h'
        with h'' | ⟨hlt, he⟩
      · exact Or.inl h''
      · exact Or.inr ⟨a, by simp, hlt, he⟩
    · rcases h' with ⟨i, hi, hlt, he⟩
      exact Or.inr ⟨i, by simp [hi], hlt, he⟩

/-- Provenance of an entry of a kind collection produced by
`computeVariants`: it comes from a step index in range whose rounded mix
fraction passed the skip test, it is named with that fraction, and its
value is the formatted default-mode blend at that fraction. -/
theorem mem_getKind_computeVariants (B : Formatters)
    (colorOutputFormat : ColorFormat) (colorName colorCode : String)
    (colorAmount : ℕ) (mixAmount : ℚ) (ks : List HueVariant)
    (v : HueVariant) (e : String × Option String)
    (h : e ∈ getKind (computeVariants B colorOutputFormat colorName
      colorCode colorAmount mixAmount ks) v) :
    ∃ i, 1 ≤ i ∧ i ≤ colorAmount ∧ round2 (mixAmount * i) < 1 ∧
      e = (variantTitle colorName v (round2 (mixAmount * i)),
        format B colorOutputFormat (blend (JsColor.oklchConv colorCode)
          (mixColors v) (round2 (mixAmount * i)))) := by
  unfold computeVariants at h
  rcases mem_getKind_foldRows (format B colorOutputFormat) colorName
      (JsColor.oklchConv colorCode) mixAmount ks
      (List.range' 1 colorAmount) _ v e h with h' | ⟨i, hi, hlt, he⟩
  · cases v <;> simp [getKind] at h'
  · have hr := List.mem_range'_1.mp hi
    exact ⟨i, hr.1, by omega, hlt, he⟩

/-- One `step` preserves distinctness of the formatted values collected in
the shades sequence: a shade candidate is pushed only after the dedup test
checked it against every value already in the shades collection. -/
theorem shades_nodup_step (fmt : JsColor → Option String)
    (colorName : String) (hue : JsColor) (mixAmount : ℚ) (s : Variants)
    (i : ℕ) (v : HueVariant) (h : (s.shades.map Prod.snd).Nodup) :
    (((step fmt colorName hue mixAmount s i v).shades).map Prod.snd).Nodup := by
  by_cases h1 : 1 ≤ round2 (mixAmount * i)
  · rw [step_skip fmt colorName hue mixAmount s i v h1]; exact h
  · cases h2 : dedupHit s
      (fmt (blend hue (mixColors v) (round2 (mixAmount * i)))) with
    | true => rw [step_dedup fmt colorName hue mixAmount s i v h1 h2]; exact h
    | false =>
      rw [step_push fmt colorName hue mixAmount s i v h1 h2]
      cases v with
      | tints => simpa [pushKind] using h
      | tones => simpa [pushKind] using h
      | shades =>
        have h3 : ((s.shades.map Prod.snd).contains
            (fmt (blend hue (mixColors HueVariant.shades)
              (round2 (mixAmount * i))))) = false := by
          simp only [dedupHit, Bool.or_eq_false_iff] at h2
          exact h2.2
        have h4 : (fmt (blend hue (mixColors HueVariant.shades)
            (round2 (mixAmount * i)))) ∉ s.shades.map Prod.snd := by
          simpa using h3
        simp only [pushKind, List.map_append, List.map_cons, List.map_nil]
        exact List.Nodup.append h (List.nodup_singleton _)
          (fun x hx1 hx2 => by
            simp only [List.mem_singleton] at hx2
            exact h4 (hx2 ▸ hx1))

/-- A row of kinds preserves the shades distinctness invariant. -/
theorem shades_nodup_stepRow (fmt : JsColor → Option String)
    (colorName : String) (hue : JsColor) (mixAmount : ℚ)
    (ks : List HueVariant) (s : Variants) (i : ℕ)
    (h : (s.shades.map Prod.snd).Nodup) :
    (((stepRow fmt colorName hue mixAmount ks s i).shades).map
      Prod.snd).Nodup := by
  induction ks generalizing s with
  | nil => exact h
  | cons k t ih =>
    simp only [stepRow, List.foldl_cons]
    exact ih (step fmt colorName hue mixAmount s i k)
      (shades_nodup_step fmt colorName hue mixAmount s i k h)

/-- Folding any list of step indices preserves the shades distinctness
invariant. -/
theorem shades_nodup_foldRows (fmt : JsColor → Option String)
    (colorName : String) (hue : JsColor) (mixAmount : ℚ)
    (ks : List HueVariant) (is : List ℕ) (s : Variants)
    (h : (s.shades.map Prod.snd).Nodup) :
    (((is.foldl (stepRow fmt colorName hue mixAmount ks) s).shades).map
      Prod.snd).Nodup := by
  induction is generalizing s with
  | nil => exact h
  | cons a t ih =>
    rw [List.foldl_cons]
    exact ih (stepRow fmt colorName hue mixAmount ks s a)
      (shades_nodup_stepRow fmt colorName hue mixAmount ks s a h)

/-- The percent interpolated into a variant name is an integer: rounding
`f * 100` to two decimals, where `f` is itself a two-decimal rounding,
yields exactly the integer `round (q * 100)`. -/
theorem round2_mul_hundred (q : ℚ) :
    round2 (round2 q * 100) = ((round (q * 100) : ℤ) : ℚ) := by
  unfold round2
  rw [div_mul_cancel₀ _ (by norm_num : (100 : ℚ) ≠ 0)]
  rw [show ((round (q * 100) : ℤ) : ℚ) * 100 =
    (((round (q * 100) * 100 : ℤ) : ℚ)) by push_cast; ring]
  rw [round_intCast]
  push_cast
  ring

/-- Rendering an integer-valued rational the way JavaScript renders an
integer number. -/
theorem jsNumToString_intCast (k : ℤ) :
    jsNumToString ((k : ℚ)) = toString k := by
  simp [jsNumToString, Rat.den_intCast, Rat.num_intCast]

/-- A `step` never changes the hue field. -/
theorem hue_step (fmt : JsColor → Option String) (colorName : String)
    (hue : JsColor) (mixAmount : ℚ) (s : Variants) (i : ℕ)
    (v : HueVariant) :
    (step fmt colorName hue mixAmount s i v).hue = s.hue := by
  by_cases h1 : 1 ≤ round2 (mixAmount * i)
  · rw [step_skip fmt colorName hue mixAmount s i v h1]
  · cases h2 : dedupHit s
      (fmt (blend hue (mixColors v) (round2 (mixAmount * i)))) with
    | true => rw [step_dedup fmt colorName hue mixAmount s i v h1 h2]
    | false =>
      rw [step_push fmt colorName hue mixAmount s i v h1 h2]
      cases v <;> simp [pushKind]

/-- A row of kinds never changes the hue field. -/
theorem hue_stepRow (fmt : JsColor → Option String) (colorName : String)
    (hue : JsColor) (mixAmount : ℚ) (ks : List HueVariant) (s : Variants)
    (i : ℕ) :
    (stepRow fmt colorName hue mixAmount ks s i).hue = s.hue := by
  induction ks generalizing s with
  | nil => rfl
  | cons k t ih =>
    simp only [stepRow, List.foldl_cons]
    exact (ih (step fmt colorName hue mixAmount s i k)).trans
      (hue_step fmt colorName hue mixAmount s i k)

/-- Folding rows never changes the hue field. -/
theorem hue_foldRows (fmt : JsColor → Option String) (colorName : String)
    (hue : JsColor) (mixAmount : ℚ) (ks : List HueVariant) (is : List ℕ)
    (s : Variants) :
    (is.foldl (stepRow fmt colorName hue mixAmount ks) s).hue = s.hue := by
  induction is generalizing s with
  | nil => rfl
  | cons a t ih =>
    rw [List.foldl_cons]
    exact (ih (stepRow fmt colorName hue mixAmount ks s a)).trans
      (hue_stepRow fmt colorName hue mixAmount ks s a)

/-- The hue field of a `computeVariants` result is the formatted base
color when the formatter yields a string, and the empty string otherwise. -/
theorem hue_computeVariants (B : Formatters)
    (colorOutputFormat : ColorFormat) (colorName colorCode : String)
    (colorAmount : ℕ) (mixAmount : ℚ) (ks : List HueVariant) :
    (computeVariants B colorOutputFormat colorName colorCode colorAmount
      mixAmount ks).hue =
      (format B colorOutputFormat (JsColor.oklchConv colorCode)).getD "" := by
  unfold computeVariants
  exact hue_foldRows (format B colorOutputFormat) colorName
    (JsColor.oklchConv colorCode) mixAmount ks (List.range' 1 colorAmount) _

/-- A whole row is skipped identically when the rounded fraction of its
step index reaches 1 (the fraction does not depend on the kind). -/
theorem stepRow_skip (fmt : JsColor → Option String) (colorName : String)
    (hue : JsColor) (mixAmount : ℚ) (ks : List HueVariant) (s : Variants)
    (i : ℕ) (h : 1 ≤ round2 (mixAmount * i)) :
    stepRow fmt colorName hue mixAmount ks s i = s := by
  induction ks generalizing s with
  | nil => rfl
  | cons k t ih =>
    simp only [stepRow, List.foldl_cons,
      step_skip fmt colorName hue mixAmount s i k h]
    exact ih s

/-- Concrete two-decimal roundings used in the closed instances below. -/
theorem round2_quarter : round2 ((1:ℚ)/4 * ((1:ℕ):ℚ)) = 1/4 := by
  norm_num [round2, round_eq]

/-- Rounding 1/5 of one step. -/
theorem round2_fifth_one : round2 ((1:ℚ)/5 * ((1:ℕ):ℚ)) = 1/5 := by
  norm_num [round2, round_eq]

/-- Rounding 1/5 of two steps. -/
theorem round2_fifth_two : round2 ((1:ℚ)/5 * ((2:ℕ):ℚ)) = 2/5 := by
  norm_num [round2, round_eq]

/-- Rounding 1/2 of one step. -/
theorem round2_half : round2 ((1:ℚ)/2 * ((1:ℕ):ℚ)) = 1/2 := by
  norm_num [round2, round_eq]

/-- Rounding 249/250 of one step: the raw fraction 0.996 is below 1, but
its two-decimal rounding is exactly 1. -/
theorem round2_ninetysix : round2 ((249:ℚ)/250 * ((1:ℕ):ℚ)) = 1 := by
  norm_num [round2, round_eq]

/-- Evaluation of `computeVariants` under `BTag` at one quarter step: the
single accepted tint records interpolation mode "rgb". -/
theorem tintsTagEval :
    (computeVariants BTag ColorFormat.hex "red" "#ff0000" 1 (1/4)
      [HueVariant.tints]).tints =
      [(variantTitle "red" HueVariant.tints (round2 ((1:ℚ)/4 * ((1:ℕ):ℚ))),
        some "rgb")] := by
  have h1 : ¬ (1:ℚ) ≤ round2 ((1:ℚ)/4 * ((1:ℕ):ℚ)) := by
    rw [round2_quarter]; norm_num
  simp only [computeVariants, format]
  rw [show List.range' 1 1 = [1] from rfl, List.foldl_cons, List.foldl_nil]
  simp only [stepRow, List.foldl_cons, List.foldl_nil]
  rw [step_push BTag.fmtHex "red" (JsColor.oklchConv "#ff0000") (1/4) _ 1
    HueVariant.tints h1 (by decide)]
  simp [pushKind, BTag, fmtTag, blend]

/-- Evaluation of `computeVariants` under `BW` with two steps of 1/5: both
tint candidates format to the same string "w" and both are accepted. -/
theorem tintsDupEval :
    ((computeVariants BW ColorFormat.hex "n" "c" 2 (1/5)
      [HueVariant.tints]).tints).map Prod.snd = [some "w", some "w"] := by
  have h1 : ¬ (1:ℚ) ≤ round2 ((1:ℚ)/5 * ((1:ℕ):ℚ)) := by
    rw [round2_fifth_one]; norm_num
  have h2 : ¬ (1:ℚ) ≤ round2 ((1:ℚ)/5 * ((2:ℕ):ℚ)) := by
    rw [round2_fifth_two]; norm_num
  simp only [computeVariants, format]
  rw [show List.range' 1 2 = [1, 2] from rfl, List.foldl_cons,
    List.foldl_cons, List.foldl_nil]
  simp only [stepRow, List.foldl_cons, List.foldl_nil]
  rw [step_push BW.fmtHex "n" (JsColor.oklchConv "c") (1/5) _ 1
    HueVariant.tints h1 (by decide)]
  rw [step_push BW.fmtHex "n" (JsColor.oklchConv "c") (1/5) _ 2
    HueVariant.tints h2 (by decide)]
  simp [pushKind, BW, fmtBlendW, blend]

/-- Evaluation of `computeVariants` under `BNB` with one step of 1/2: the
degenerate-format candidate is pushed with an absent value. -/
theorem tintsNoneEval :
    ((computeVariants BNB ColorFormat.hex "n" "c" 1 (1/2)
      [HueVariant.tints]).tints).map Prod.snd = [none] := by
  have h1 : ¬ (1:ℚ) ≤ round2 ((1:ℚ)/2 * ((1:ℕ):ℚ)) := by
    rw [round2_half]; norm_num
  simp only [computeVariants, format]
  rw [show List.range' 1 1 = [1] from rfl, List.foldl_cons, List.foldl_nil]
  simp only [stepRow, List.foldl_cons, List.foldl_nil]
  rw [step_push BNB.fmtHex "n" (JsColor.oklchConv "c") (1/2) _ 1
    HueVariant.tints h1 (by decide)]
  simp [pushKind, BNB, fmtNoneBlend, blend]

theorem round2_half_lt_one : round2 ((1:ℚ)/2 * ((1:ℕ):ℚ)) < 1 := by
  rw [round2_half]; norm_num

theorem round2_quarter_lt_one : round2 ((1:ℚ)/4 * ((1:ℕ):ℚ)) < 1 := by
  rw [round2_quarter]; norm_num

theorem one_le_round2_ninetysix : 1 ≤ round2 ((249:ℚ)/250 * ((1:ℕ):ℚ)) :=
  le_of_eq round2_ninetysix.symm

/-- Claim C1 (amended): every accepted variant value is obtained by first
interpolating between the converted base color and the kind's reference
color at the rounded mix fraction with culori's default interpolation mode
"rgb" (the source passes no mode argument, so the blend is not performed
in the uniform oklch space), and only afterwards formatting the result in
the selected output mode. -/
theorem c1_blend_default_mode_then_format (B : Formatters)
    (mode : ColorFormat) (colorName colorCode : String) (a : ℕ) (m : ℚ)
    (ks : List HueVariant) (v : HueVariant) (e : String × Option String)
    (h : e ∈ getKind (computeVariants B mode colorName colorCode a m ks) v) :
    ∃ i, 1 ≤ i ∧ i ≤ a ∧ round2 (m * i) < 1 ∧
      e.2 = format B mode (JsColor.interp "rgb"
        (JsColor.oklchConv colorCode) (mixColors v) (round2 (m * i))) := by
  obtain ⟨i, h1, h2, h3, he⟩ :=
    mem_getKind_computeVariants B mode colorName colorCode a m ks v e h
  exact ⟨i, h1, h2, h3, by rw [he]; rfl⟩

/-- Claim C1 counterexample: at a concrete input the candidate recorded by
the source's blend is the mode-"rgb" interpolation, which is not the
uniform-space (oklch) interpolation of the same endpoints and fraction;
under the formatter bundle `BTag` the produced variant value is
some "rgb" while formatting the uniform-space blend yields some "oklch". -/
theorem c1_blend_not_in_uniform_space :
    blend (JsColor.oklchConv "#ff0000") (mixColors HueVariant.tints)
        (round2 ((1:ℚ)/4 * ((1:ℕ):ℚ))) ≠
      specBlend (JsColor.oklchConv "#ff0000") (mixColors HueVariant.tints)
        (round2 ((1:ℚ)/4 * ((1:ℕ):ℚ))) ∧
    ((computeVariants BTag ColorFormat.hex "red" "#ff0000" 1 (1/4)
      [HueVariant.tints]).tints).map Prod.snd = [some "rgb"] ∧
    fmtTag (specBlend (JsColor.oklchConv "#ff0000")
      (mixColors HueVariant.tints) (round2 ((1:ℚ)/4 * ((1:ℕ):ℚ)))) =
      some "oklch" := by
  refine ⟨?_, ?_, rfl⟩
  · intro h
    simp [blend, specBlend] at h
  · rw [tintsTagEval]
    rfl

/-- Closed instance of claim C1's amended theorem at a concrete accepted
entry. -/
theorem c1_blend_default_mode_then_format_witness :
    ((variantTitle "red" HueVariant.tints (round2 ((1:ℚ)/4 * ((1:ℕ):ℚ))),
        (some "rgb" : Option String)) ∈
      getKind (computeVariants BTag ColorFormat.hex "red" "#ff0000" 1
        (1/4) [HueVariant.tints]) HueVariant.tints) ∧
    (∃ i : ℕ, 1 ≤ i ∧ i ≤ 1 ∧ round2 ((1:ℚ)/4 * (i:ℚ)) < 1 ∧
      (variantTitle "red" HueVariant.tints (round2 ((1:ℚ)/4 * ((1:ℕ):ℚ))),
        (some "rgb" : Option String)).2 =
        format BTag ColorFormat.hex (JsColor.interp "rgb"
          (JsColor.oklchConv "#ff0000") (mixColors HueVariant.tints)
          (round2 ((1:ℚ)/4 * (i:ℚ))))) := by
  have hm : (variantTitle "red" HueVariant.tints
      (round2 ((1:ℚ)/4 * ((1:ℕ):ℚ))), (some "rgb" : Option String)) ∈
      getKind (computeVariants BTag ColorFormat.hex "red" "#ff0000" 1
        (1/4) [HueVariant.tints]) HueVariant.tints := by
    show (variantTitle "red" HueVariant.tints
      (round2 ((1:ℚ)/4 * ((1:ℕ):ℚ))), (some "rgb" : Option String)) ∈
      (computeVariants BTag ColorFormat.hex "red" "#ff0000" 1 (1/4)
        [HueVariant.tints]).tints
    rw [tintsTagEval]
    exact List.mem_singleton_self _
  exact ⟨hm, c1_blend_default_mode_then_format BTag ColorFormat.hex "red"
    "#ff0000" 1 (1/4) [HueVariant.tints] HueVariant.tints _ hm⟩

/-- Claim C2: a blended candidate with a defined formatted string is
discarded (the state, hence every kind's sequence, is left unchanged) if
and only if that string exactly equals one of the three reference color
strings, the base hue string, or a value already accepted into the shades
collection for this base color; since the right-hand side mentions only
the shades collection, equality with a previously accepted tint or tone
value never causes suppression. -/
theorem c2_dedup_iff (fmt : JsColor → Option String) (colorName : String)
    (hue : JsColor) (mixAmount : ℚ) (s : Variants) (i : ℕ)
    (v : HueVariant) (str : String)
    (h1 : round2 (mixAmount * i) < 1)
    (h2 : fmt (blend hue (mixColors v) (round2 (mixAmount * i))) =
      some str) :
    (step fmt colorName hue mixAmount s i v = s ↔
      (str ∈ mixColorsValues ∨ str = s.hue ∨
        some str ∈ s.shades.map Prod.snd)) := by
  have h1' : ¬ 1 ≤ round2 (mixAmount * i) := not_le.mpr h1
  constructor
  · intro heq
    by_contra hcon
    have hd : dedupHit s
        (fmt (blend hue (mixColors v) (round2 (mixAmount * i)))) = false := by
      rw [h2]
      cases hb : dedupHit s (some str) with
      | false => rfl
      | true => exact absurd ((dedupHit_some s str).mp hb) hcon
    rw [step_push fmt colorName hue mixAmount s i v h1' hd] at heq
    exact absurd heq (pushKind_ne s v _)
  · intro hcon
    apply step_dedup fmt colorName hue mixAmount s i v h1'
    rw [h2]
    exact (dedupHit_some s str).mpr hcon

/-- Closed instance of claim C2's theorem: a defined candidate at one half
step against the state `stateBH`. -/
theorem c2_dedup_iff_witness :
    round2 ((1:ℚ)/2 * ((1:ℕ):ℚ)) < 1 ∧
    fmtBlendW (blend (JsColor.oklchConv "c") (mixColors HueVariant.tints)
      (round2 ((1:ℚ)/2 * ((1:ℕ):ℚ)))) = some "w" ∧
    (step fmtBlendW "n" (JsColor.oklchConv "c") (1/2) stateBH 1
        HueVariant.tints = stateBH ↔
      ("w" ∈ mixColorsValues ∨ "w" = stateBH.hue ∨
        some "w" ∈ stateBH.shades.map Prod.snd)) :=
  ⟨round2_half_lt_one, rfl,
    c2_dedup_iff fmtBlendW "n" (JsColor.oklchConv "c") (1/2) stateBH 1
      HueVariant.tints "w" round2_half_lt_one rfl⟩

/-- Claim C3 counterexample: with the formatter bundle `BNB`, formatting
of the single blended candidate yields no string, yet the candidate is
not omitted from the result: it is appended to the tints sequence with an
absent value. -/
theorem c3_degenerate_candidate_not_omitted :
    BNB.fmtHex (blend (JsColor.oklchConv "c") (mixColors HueVariant.tints)
      (round2 ((1:ℚ)/2 * ((1:ℕ):ℚ)))) = none ∧
    ((computeVariants BNB ColorFormat.hex "n" "c" 1 (1/2)
      [HueVariant.tints]).tints).map Prod.snd = [none] ∧
    (computeVariants BNB ColorFormat.hex "n" "c" 1 (1/2)
      [HueVariant.tints]).tints ≠ [] := by
  refine ⟨rfl, tintsNoneEval, ?_⟩
  intro h
  have h2 := congrArg (List.map Prod.snd) h
  rw [tintsNoneEval] at h2
  simp at h2

/-- Claim C3 (amended): if formatting the base color yields no string the
hue field is left as the empty string rather than raising an error; if
formatting a blended candidate yields no string the candidate is not
omitted: provided no previously accepted shade entry has an absent value,
it is appended to its kind's sequence with an absent value, and
generation continues either way. -/
theorem c3_degenerate_handling :
    (∀ (B : Formatters) (mode : ColorFormat) (colorName colorCode : String)
      (a : ℕ) (m : ℚ) (ks : List HueVariant),
      format B mode (JsColor.oklchConv colorCode) = none →
      (computeVariants B mode colorName colorCode a m ks).hue = "") ∧
    (∀ (fmt : JsColor → Option String) (colorName : String)
      (hue : JsColor) (m : ℚ) (s : Variants) (i : ℕ) (v : HueVariant),
      round2 (m * i) < 1 →
      fmt (blend hue (mixColors v) (round2 (m * i))) = none →
      (s.shades.map Prod.snd).contains none = false →
      step fmt colorName hue m s i v =
        pushKind s v
          (variantTitle colorName v (round2 (m * i)), none)) := by
  constructor
  · intro B mode colorName colorCode a m ks hf
    rw [hue_computeVariants, hf]
    rfl
  · intro fmt colorName hue m s i v h1 h2 h3
    have hd : dedupHit s
        (fmt (blend hue (mixColors v) (round2 (m * i)))) = false := by
      rw [h2, dedupHit_none, h3]
    rw [step_push fmt colorName hue m s i v (not_le.mpr h1) hd, h2]

/-- Closed instance of claim C3's amended theorem: a degenerate base hue
and a degenerate candidate at one half step. -/
theorem c3_degenerate_handling_witness :
    (format BNone ColorFormat.hex (JsColor.oklchConv "c") = none ∧
      (computeVariants BNone ColorFormat.hex "n" "c" 1 (1/2)
        [HueVariant.tints]).hue = "") ∧
    (round2 ((1:ℚ)/2 * ((1:ℕ):ℚ)) < 1 ∧
      fmtNoneBlend (blend (JsColor.oklchConv "c")
        (mixColors HueVariant.tints)
        (round2 ((1:ℚ)/2 * ((1:ℕ):ℚ)))) = none ∧
      (stateBH.shades.map Prod.snd).contains none = false ∧
      step fmtNoneBlend "n" (JsColor.oklchConv "c") (1/2) stateBH 1
          HueVariant.tints =
        pushKind stateBH HueVariant.tints
          (variantTitle "n" HueVariant.tints
            (round2 ((1:ℚ)/2 * ((1:ℕ):ℚ))), none)) :=
  ⟨⟨rfl, c3_degenerate_handling.1 BNone ColorFormat.hex "n" "c" 1 (1/2)
      [HueVariant.tints] rfl⟩,
    round2_half_lt_one, rfl, rfl,
    c3_degenerate_handling.2 fmtNoneBlend "n" (JsColor.oklchConv "c")
      (1/2) stateBH 1 HueVariant.tints round2_half_lt_one rfl rfl⟩

/-- Claim C4: when any base color value in the supplied batch fails to
parse, the whole run is rejected before generation (no base colors are
returned, and no palette entry is produced for any base color, including
the parseable ones); generation proceeds, producing one entry per base
color, exactly when every value in the batch parses. -/
theorem c4_batch_rejection (parse : String → Option JsColor)
    (B : Formatters) (mode : ColorFormat) (ks : List HueVariant)
    (entries : List (String × String)) (a : ℕ) (m : ℚ) :
    ((∃ p ∈ entries, parse p.2 = none) →
      runPalette parse B mode ks entries a m = none) ∧
    ((∀ p ∈ entries, (parse p.2).isSome) →
      runPalette parse B mode ks entries a m =
        some (generatePalette B mode ks entries a m)) := by
  constructor
  · rintro ⟨p, hp, hnone⟩
    have hv : areColorsValid parse (entries.map Prod.snd) = false := by
      rw [areColorsValid, List.all_eq_false]
      exact ⟨p.2, List.mem_map_of_mem _ hp, by simp [hnone]⟩
    simp [runPalette, getBaseColors, hv]
  · intro hall
    have hv : areColorsValid parse (entries.map Prod.snd) = true := by
      rw [areColorsValid, List.all_eq_true]
      intro c hc
      obtain ⟨p, hp, rfl⟩ := List.mem_map.mp hc
      exact hall p hp
    simp [runPalette, getBaseColors, hv]

/-- Closed instance of claim C4's theorem: the batch `entriesW` contains
the unparseable value "bad", so the run is rejected. -/
theorem c4_batch_rejection_witness :
    (∃ p ∈ entriesW, parseW p.2 = none) ∧
    runPalette parseW BW ColorFormat.hex [HueVariant.tints] entriesW 1
      (1/2) = none :=
  ⟨⟨("b", "bad"), by decide, by decide⟩,
    (c4_batch_rejection parseW BW ColorFormat.hex [HueVariant.tints]
      entriesW 1 (1/2)).1 ⟨("b", "bad"), by decide, by decide⟩⟩

/-- Claim C5: with stepSize = 1/(stepCount+1) and 1 ≤ stepCount ≤ 100, the
rounded mix fraction at every step index 1 ≤ i ≤ stepCount is strictly
below 1, so the skip test never fires in this mode and no step index is
lost to the boundary test. -/
theorem c5_count_mode_never_skips (N i : ℕ) (hN1 : 1 ≤ N) (hN2 : N ≤ 100)
    (hi1 : 1 ≤ i) (hi2 : i ≤ N) :
    round2 (stepSizeOfCount N * i) < 1 ∧
    (List.range' 1 N).filter
      (fun j : ℕ => decide (round2 (stepSizeOfCount N * (j:ℚ)) < 1)) =
      List.range' 1 N := by
  have h2 : (N:ℚ) ≤ 100 := by exact_mod_cast hN2
  have hN0 : (0:ℚ) < (N:ℚ) + 1 := by positivity
  have hmain : ∀ j : ℕ, 1 ≤ j → j ≤ N →
      round2 (stepSizeOfCount N * j) < 1 := by
    intro j hj1 hj2
    have h1 : (j:ℚ) ≤ (N:ℚ) := by exact_mod_cast hj2
    have hkey : stepSizeOfCount N * (j:ℚ) * 100 < 199/2 := by
      unfold stepSizeOfCount
      rw [div_mul_eq_mul_div, one_mul, div_mul_eq_mul_div, div_lt_iff₀ hN0]
      nlinarith
    have hlt : round (stepSizeOfCount N * (j:ℚ) * 100) < 100 := by
      rw [round_eq, Int.floor_lt]
      push_cast
      linarith
    unfold round2
    rw [div_lt_one (by norm_num : (0:ℚ) < 100)]
    exact_mod_cast hlt
  refine ⟨hmain i hi1 hi2, List.filter_eq_self.mpr ?_⟩
  intro j hj
  have hr := List.mem_range'_1.mp hj
  exact decide_eq_true (hmain j hr.1 (by omega))

/-- Closed instance of claim C5's theorem at the extreme point
stepCount = 100, i = 100. -/
theorem c5_count_mode_never_skips_witness :
    (1 ≤ 100 ∧ 100 ≤ 100 ∧ 1 ≤ 100 ∧ 100 ≤ 100) ∧
    (round2 (stepSizeOfCount 100 * ((100:ℕ):ℚ)) < 1 ∧
      (List.range' 1 100).filter
        (fun j : ℕ => decide (round2 (stepSizeOfCount 100 * (j:ℚ)) < 1)) =
        List.range' 1 100) :=
  ⟨⟨by decide, by decide, by decide, by decide⟩,
    c5_count_mode_never_skips 100 100 (by decide) (by decide) (by decide)
      (by decide)⟩

/-- Claim C6: the rounded mix fraction is computed before the comparison
with 1 (a raw fraction below 1 whose two-decimal rounding reaches 1 is
skipped, witnessed concretely at 249/250); a pair whose rounded fraction
reaches 1 leaves the state unchanged while iteration over the remaining
kinds and step indices continues, so the result equals the fold over
exactly the step indices whose rounded fraction is below 1; and every
accepted entry is named with the same rounded fraction that passed the
comparison. -/
theorem c6_skip_continues :
    (∀ (fmt : JsColor → Option String) (colorName : String)
      (hue : JsColor) (m : ℚ) (s : Variants) (i : ℕ) (v : HueVariant),
      1 ≤ round2 (m * i) → step fmt colorName hue m s i v = s) ∧
    (∀ (B : Formatters) (mode : ColorFormat) (colorName colorCode : String)
      (a : ℕ) (m : ℚ) (ks : List HueVariant),
      computeVariants B mode colorName colorCode a m ks =
        ((List.range' 1 a).filter
            (fun i : ℕ => decide (round2 (m * (i:ℚ)) < 1))).foldl
          (stepRow (format B mode) colorName (JsColor.oklchConv colorCode)
            m ks)
          { hue := (format B mode (JsColor.oklchConv colorCode)).getD "",
            tints := [], shades := [], tones := [] }) ∧
    (∀ (B : Formatters) (mode : ColorFormat) (colorName colorCode : String)
      (a : ℕ) (m : ℚ) (ks : List HueVariant) (v : HueVariant)
      (e : String × Option String),
      e ∈ getKind (computeVariants B mode colorName colorCode a m ks) v →
      ∃ i, round2 (m * i) < 1 ∧
        e.1 = variantTitle colorName v (round2 (m * i))) ∧
    ((249:ℚ)/250 * ((1:ℕ):ℚ) < 1 ∧
      step fmtBlendW "n" (JsColor.oklchConv "c") (249/250) stateBH 1
        HueVariant.tints = stateBH) := by
  refine ⟨?_, ?_, ?_, ?_, ?_⟩
  · intro fmt colorName hue m s i v h
    exact step_skip fmt colorName hue m s i v h
  · intro B mode colorName colorCode a m ks
    simp only [computeVariants]
    apply foldl_eq_foldl_filter
    intro t i hi hp
    exact stepRow_skip (format B mode) colorName
      (JsColor.oklchConv colorCode) m ks t i
      (not_lt.mp (of_decide_eq_false hp))
  · intro B mode colorName colorCode a m ks v e h
    obtain ⟨i, h1, h2, h3, he⟩ :=
      mem_getKind_computeVariants B mode colorName colorCode a m ks v e h
    exact ⟨i, h3, by rw [he]⟩
  · norm_num
  · exact step_skip fmtBlendW "n" (JsColor.oklchConv "c") (249/250)
      stateBH 1 HueVariant.tints one_le_round2_ninetysix

/-- Closed instance of claim C6's skip clause: at mix amount 249/250 the
raw fraction of the first step is below 1 but its rounding reaches 1 and
the pair is skipped with the state unchanged. -/
theorem c6_skip_continues_witness :
    1 ≤ round2 ((249:ℚ)/250 * ((1:ℕ):ℚ)) ∧
    step fmtBlendW "n" (JsColor.oklchConv "c") (249/250) stateBH 1
      HueVariant.tints = stateBH :=
  ⟨one_le_round2_ninetysix,
    c6_skip_continues.1 fmtBlendW "n" (JsColor.oklchConv "c") (249/250)
      stateBH 1 HueVariant.tints one_le_round2_ninetysix⟩

/-- Claim C7: every accepted variant entry of kind `v` is named
"{baseName}-{kind}-{percent}", where the kind is the singular form of the
kind tag (tint, shade or tone) and the percent is the rounded mix
fraction times 100, rounded to two decimals (an exact integer, rendered
without decimals); the entry sits in that kind's ordered sequence. -/
theorem c7_variant_naming :
    (∀ (B : Formatters) (mode : ColorFormat) (colorName colorCode : String)
      (a : ℕ) (m : ℚ) (ks : List HueVariant) (v : HueVariant)
      (e : String × Option String),
      e ∈ getKind (computeVariants B mode colorName colorCode a m ks) v →
      ∃ i, 1 ≤ i ∧ i ≤ a ∧
        e.1 = colorName ++ "-" ++ (hueVariantStr v).dropRight 1 ++ "-" ++
          toString (round (m * i * 100) : ℤ)) ∧
    (hueVariantStr HueVariant.tints).dropRight 1 = "tint" ∧
    (hueVariantStr HueVariant.shades).dropRight 1 = "shade" ∧
    (hueVariantStr HueVariant.tones).dropRight 1 = "tone" := by
  refine ⟨?_, by decide, by decide, by decide⟩
  intro B mode colorName colorCode a m ks v e h
  obtain ⟨i, h1, h2, h3, he⟩ :=
    mem_getKind_computeVariants B mode colorName colorCode a m ks v e h
  refine ⟨i, h1, h2, ?_⟩
  rw [he]
  show variantTitle colorName v (round2 (m * i)) = _
  rw [variantTitle, round2_mul_hundred, jsNumToString_intCast]

/-- Closed instance of claim C7's theorem at a concrete accepted entry. -/
theorem c7_variant_naming_witness :
    ((variantTitle "red" HueVariant.tints (round2 ((1:ℚ)/4 * ((1:ℕ):ℚ))),
        (some "rgb" : Option String)) ∈
      getKind (computeVariants BTag ColorFormat.hex "red" "#ff0000" 1
        (1/4) [HueVariant.tints]) HueVariant.tints) ∧
    (∃ i : ℕ, 1 ≤ i ∧ i ≤ 1 ∧
      (variantTitle "red" HueVariant.tints (round2 ((1:ℚ)/4 * ((1:ℕ):ℚ))),
        (some "rgb" : Option String)).1 =
        "red" ++ "-" ++ (hueVariantStr HueVariant.tints).dropRight 1 ++
          "-" ++ toString (round ((1:ℚ)/4 * (i:ℚ) * 100) : ℤ)) := by
  have hm : (variantTitle "red" HueVariant.tints
      (round2 ((1:ℚ)/4 * ((1:ℕ):ℚ))), (some "rgb" : Option String)) ∈
      getKind (computeVariants BTag ColorFormat.hex "red" "#ff0000" 1
        (1/4) [HueVariant.tints]) HueVariant.tints := by
    show (variantTitle "red" HueVariant.tints
      (round2 ((1:ℚ)/4 * ((1:ℕ):ℚ))), (some "rgb" : Option String)) ∈
      (computeVariants BTag ColorFormat.hex "red" "#ff0000" 1 (1/4)
        [HueVariant.tints]).tints
    rw [tintsTagEval]
    exact List.mem_singleton_self _
  exact ⟨hm, c7_variant_naming.1 BTag ColorFormat.hex "red" "#ff0000" 1
    (1/4) [HueVariant.tints] HueVariant.tints _ hm⟩

/-- Claim C8: variant generation is deterministic: two runs of
`computeVariants` on pairwise identical inputs (formatter behaviors,
output mode, base name, base color value, step count, step size, and the
requested kinds in the same order) produce identical results, including
identical per-kind sequence ordering. -/
theorem c8_deterministic (B1 B2 : Formatters) (mode1 mode2 : ColorFormat)
    (n1 n2 c1 c2 : String) (a1 a2 : ℕ) (m1 m2 : ℚ)
    (ks1 ks2 : List HueVariant)
    (hB : B1 = B2) (hmode : mode1 = mode2) (hn : n1 = n2) (hc : c1 = c2)
    (ha : a1 = a2) (hm : m1 = m2) (hks : ks1 = ks2) :
    computeVariants B1 mode1 n1 c1 a1 m1 ks1 =
      computeVariants B2 mode2 n2 c2 a2 m2 ks2 := by
  rw [hB, hmode, hn, hc, ha, hm, hks]

/-- Closed instance of claim C8's theorem at a concrete input. -/
theorem c8_deterministic_witness :
    (BW = BW ∧ ColorFormat.hex = ColorFormat.hex ∧ "n" = "n" ∧
      "c" = "c" ∧ 1 = 1 ∧ (1:ℚ)/2 = (1:ℚ)/2 ∧
      [HueVariant.tints] = [HueVariant.tints]) ∧
    computeVariants BW ColorFormat.hex "n" "c" 1 (1/2)
        [HueVariant.tints] =
      computeVariants BW ColorFormat.hex "n" "c" 1 (1/2)
        [HueVariant.tints] :=
  ⟨⟨rfl, rfl, rfl, rfl, rfl, rfl, rfl⟩,
    c8_deterministic BW BW ColorFormat.hex ColorFormat.hex "n" "n" "c" "c"
      1 1 (1/2) (1/2) [HueVariant.tints] [HueVariant.tints]
      rfl rfl rfl rfl rfl rfl rfl⟩

/-- Claim C9: throughout generation for one base color the formatted
values accepted into the shades sequence are pairwise distinct — every
shade candidate is checked against all shade values accepted so far — and
no analogous guarantee holds for the tints (or tones) sequences. -/
theorem c9_shades_pairwise_distinct :
    (∀ (B : Formatters) (mode : ColorFormat) (colorName colorCode : String)
      (a : ℕ) (m : ℚ) (ks : List HueVariant),
      (((computeVariants B mode colorName colorCode a m ks).shades).map
        Prod.snd).Nodup) ∧
    ¬ (∀ (B : Formatters) (mode : ColorFormat)
      (colorName colorCode : String) (a : ℕ) (m : ℚ)
      (ks : List HueVariant),
      (((computeVariants B mode colorName colorCode a m ks).tints).map
        Prod.snd).Nodup) := by
  constructor
  · intro B mode colorName colorCode a m ks
    unfold computeVariants
    exact shades_nodup_foldRows (format B mode) colorName
      (JsColor.oklchConv colorCode) m ks (List.range' 1 a) _ (by simp)
  · intro hall
    have h := hall BW ColorFormat.hex "n" "c" 2 (1/5) [HueVariant.tints]
    rw [tintsDupEval] at h
    simp at h

/-- Claim C10: the reference-color part of the dedup check compares the
candidate's formatted string with the fixed literal hex strings
"#ffffff", "#000000" and "#636363"; whenever the selected output mode is
rgb or hsl and the formatters produce rgb- or hsl-notation strings (which
begin with the characters r and h respectively, never #), that comparison
never holds for any candidate — including one rendering as pure white,
pure black or the reference gray in those notations — so the whole dedup
condition reduces to the hue and shades checks. -/
theorem c10_reference_check_hex_literals_only (B : Formatters)
    (hrgb : ∀ (c : JsColor) (str : String),
      B.fmtRgb c = some str → str.data.head? = some 'r')
    (hhsl : ∀ (c : JsColor) (str : String),
      B.fmtHsl c = some str → str.data.head? = some 'h')
    (mode : ColorFormat)
    (hmode : mode = ColorFormat.rgb ∨ mode = ColorFormat.hsl)
    (c : JsColor) :
    ((mixColorsValues.map some).contains (format B mode c)) = false ∧
    ∀ s : Variants, dedupHit s (format B mode c) =
      ((format B mode c == some s.hue) ||
        ((s.shades.map Prod.snd).contains (format B mode c))) := by
  have hshape : ∀ str : String, format B mode c = some str →
      (str.data.head? = some 'r' ∨ str.data.head? = some 'h') := by
    rcases hmode with h | h <;> subst h
    · intro str hstr
      exact Or.inl (hrgb c str hstr)
    · intro str hstr
      exact Or.inr (hhsl c str hstr)
  have hmain :
      ((mixColorsValues.map some).contains (format B mode c)) = false := by
    cases hf : format B mode c with
    | none => decide
    | some str =>
      have hne : str ≠ "#ffffff" ∧ str ≠ "#000000" ∧ str ≠ "#636363" := by
        refine ⟨?_, ?_, ?_⟩ <;> rintro rfl <;>
          rcases hshape _ hf with h | h <;> exact absurd h (by decide)
      simp [mixColorsValues, hne.1, hne.2.1, hne.2.2]
  refine ⟨hmain, fun s => ?_⟩
  rw [dedupHit, hmain, Bool.false_or]

/-- Closed instance of claim C10's theorem under the formatter bundle
`BRgbHsl` in rgb output mode: even a candidate rendering as pure white is
not suppressed by the reference-color check. -/
theorem c10_reference_check_hex_literals_only_witness :
    ((∀ (c : JsColor) (str : String),
      BRgbHsl.fmtRgb c = some str → str.data.head? = some 'r') ∧
     (∀ (c : JsColor) (str : String),
      BRgbHsl.fmtHsl c = some str → str.data.head? = some 'h') ∧
     (ColorFormat.rgb = ColorFormat.rgb ∨
      ColorFormat.rgb = ColorFormat.hsl)) ∧
    ((mixColorsValues.map some).contains
      (format BRgbHsl ColorFormat.rgb (JsColor.oklchConv "c")) = false ∧
     ∀ s : Variants,
      dedupHit s (format BRgbHsl ColorFormat.rgb (JsColor.oklchConv "c")) =
        ((format BRgbHsl ColorFormat.rgb (JsColor.oklchConv "c") ==
            some s.hue) ||
          ((s.shades.map Prod.snd).contains
            (format BRgbHsl ColorFormat.rgb (JsColor.oklchConv "c"))))) := by
  have hr : ∀ (c : JsColor) (str : String),
      BRgbHsl.fmtRgb c = some str → str.data.head? = some 'r' := by
    intro c str h
    cases h
    decide
  have hh : ∀ (c : JsColor) (str : String),
      BRgbHsl.fmtHsl c = some str → str.data.head? = some 'h' := by
    intro c str h
    cases h
    decide
  exact ⟨⟨hr, hh, Or.inl rfl⟩,
    c10_reference_check_hex_literals_only BRgbHsl hr hh ColorFormat.rgb
      (Or.inl rfl) (JsColor.oklchConv "c")⟩
